import Mathlib

/-!
Shallow embedding of the lazy-read subsystem of `anndata` (modules
`anndata/_io/specs/lazy_methods.py` and
`anndata/experimental/backed/_lazy_arrays.py`), together with theorems
settling the behavioural claims about chunk layout computation, sparse
chunk validation, storage-handle scoping, chunk materialization, the
categorical and masked column wrappers, default chunking, and lazy
dataframe assembly.

Machine integers of the source are modelled as `Int`; Python / numpy
floor division and modulo are `Int.fdiv` / `Int.fmod`; tuple repetition
with a possibly-negative count is `List.replicate ·.toNat`; Python
exceptions are `Except String`.
-/

namespace LazyMethods

/-- Embeds `compute_chunk_layout_for_axis_shape` from
`lazy_methods.py`: `n_strides, rest = np.divmod(full, chunk)`
(numpy floor division and floor modulo), then `(chunk,) * n_strides`
followed by `(rest,)` iff `rest > 0`.  A negative `n_strides` yields an
empty repetition, exactly as Python tuple repetition does. -/
def compute_chunk_layout_for_axis_shape
    (chunk_axis_shape full_axis_shape : Int) : List Int :=
  let n_strides : Int := full_axis_shape.fdiv chunk_axis_shape
  let rest : Int := full_axis_shape.fmod chunk_axis_shape
  let chunk : List Int := List.replicate n_strides.toNat chunk_axis_shape
  if rest > 0 then chunk ++ [rest] else chunk

/-- `_DEFAULT_STRIDE = 1000` from `lazy_methods.py`. -/
def _DEFAULT_STRIDE : Int := 1000

/-- The static metadata `read_sparse_as_dask` reads off the sparse group
element before touching bulk data: the `shape` attribute, the
`encoding-type` attribute and the dtype of the `data` child. -/
structure SparseGroup where
  shape : Int × Int
  encoding_type : String
  dtype : String
  deriving DecidableEq, Repr

/-- The observable description of the deferred dask array built by
`read_sparse_as_dask`: the per-axis chunk layout handed to
`da.map_blocks`, the memory format witness (`csc` vs `csr`) and the
dtype. -/
structure DaskSparseArray where
  chunk_layout : List Int × List Int
  is_csc : Bool
  dtype : String
  deriving DecidableEq, Repr

/-- `true` iff the computation produced a value rather than raising. -/
def exceptOk {ε α : Type} : Except ε α → Bool
  | .ok _ => true
  | .error _ => false

/-- Embeds `read_sparse_as_dask` from `lazy_methods.py`.  Mirrors the
source line by line: `is_csc` from the `encoding-type` attribute;
`major_dim, minor_dim = (1, 0) if is_csc else (0, 1)`; with a chunks
override, raise unless `len(chunks) == 2`, then raise unless
`chunks[minor_dim] == shape[minor_dim]`, else take the stride from
`chunks[major_dim]`; without an override the stride is
`_DEFAULT_STRIDE`.  Then `shape_minor, shape_major = shape if is_csc
else shape[::-1]`, the major-axis partition comes from
`compute_chunk_layout_for_axis_shape`, the minor axis is one full-extent
chunk, and the layout is assembled in axis order. -/
def read_sparse_as_dask (elem : SparseGroup) (chunks : Option (List Int)) :
    Except String DaskSparseArray :=
  let is_csc : Bool := elem.encoding_type = "csc_matrix"
  let shapeL : List Int := [elem.shape.1, elem.shape.2]
  let major_dim : Nat := if is_csc then 1 else 0
  let minor_dim : Nat := if is_csc then 0 else 1
  let strideE : Except String Int :=
    match chunks with
    | none => .ok _DEFAULT_STRIDE
    | some cs =>
      if cs.length ≠ 2 then
        .error "chunks must be a tuple of two integers"
      else if cs.getD minor_dim 0 ≠ shapeL.getD minor_dim 0 then
        .error "Only the major axis can be chunked."
      else .ok (cs.getD major_dim 0)
  strideE.map fun stride =>
    let shape_minor : Int := if is_csc then elem.shape.1 else elem.shape.2
    let shape_major : Int := if is_csc then elem.shape.2 else elem.shape.1
    let chunks_major := compute_chunk_layout_for_axis_shape stride shape_major
    let chunks_minor : List Int := [shape_minor]
    { chunk_layout :=
        if is_csc then (chunks_minor, chunks_major) else (chunks_major, chunks_minor)
      is_csc := is_csc
      dtype := elem.dtype }

theorem layout_pos_spec (stride extent : Int) (hs : 0 < stride) :
    compute_chunk_layout_for_axis_shape stride extent =
      List.replicate (extent / stride).toNat stride ++
        (if extent % stride > 0 then [extent % stride] else []) := by
  unfold compute_chunk_layout_for_axis_shape
  rw [Int.fdiv_eq_ediv _ (Int.le_of_lt hs), Int.fmod_eq_emod _ (Int.le_of_lt hs)]
  by_cases h : extent % stride > 0 <;> simp [h]

/-- C1: for every `stride > 0` and `extent ≥ 0`, the chunk layout calculator
returns `extent div stride` copies of `stride` followed by one copy of
`extent mod stride` iff that remainder is positive; consequently the returned
sizes sum to `extent`, every entry but possibly the last equals `stride`, the
last entry lies in `(0, stride]`, and the result is empty iff `extent = 0`. -/
theorem compute_chunk_layout_correct (stride extent : Int)
    (hs : 0 < stride) (he : 0 ≤ extent) :
    compute_chunk_layout_for_axis_shape stride extent =
      List.replicate (extent / stride).toNat stride ++
        (if extent % stride > 0 then [extent % stride] else []) ∧
    (compute_chunk_layout_for_axis_shape stride extent).sum = extent ∧
    (∀ x ∈ (compute_chunk_layout_for_axis_shape stride extent).dropLast,
      x = stride) ∧
    (∀ h : compute_chunk_layout_for_axis_shape stride extent ≠ [],
      0 < (compute_chunk_layout_for_axis_shape stride extent).getLast h ∧
      (compute_chunk_layout_for_axis_shape stride extent).getLast h ≤ stride) ∧
    (compute_chunk_layout_for_axis_shape stride extent = [] ↔ extent = 0) := by
  have hspec := layout_pos_spec stride extent hs
  have hr0 : 0 ≤ extent % stride := Int.emod_nonneg extent (ne_of_gt hs)
  have hrs : extent % stride < stride := Int.emod_lt_of_pos extent hs
  have hq0 : 0 ≤ extent / stride := Int.ediv_nonneg he (le_of_lt hs)
  have hqe : ((extent / stride).toNat : Int) = extent / stride :=
    Int.toNat_of_nonneg hq0
  have heq : stride * (extent / stride) + extent % stride = extent :=
    Int.ediv_add_emod extent stride
  by_cases hrpos : extent % stride > 0
  · rw [hspec]
    simp only [hrpos, if_pos]
    refine ⟨trivial, ?_, ?_, ?_, ?_⟩
    · rw [List.sum_append, List.sum_replicate, List.sum_cons, List.sum_nil,
        nsmul_eq_mul, hqe]
      linarith
    · intro x hx
      rw [List.dropLast_concat] at hx
      exact List.eq_of_mem_replicate hx
    · intro h
      rw [List.getLast_concat]
      exact ⟨hrpos, le_of_lt hrs⟩
    · constructor
      · intro hnil
        exact absurd hnil (by simp)
      · intro hext
        subst hext
        simp [Int.zero_emod] at hrpos
  · rw [hspec]
    simp only [hrpos, if_neg, if_false, List.append_nil]
    have hr : extent % stride = 0 := le_antisymm (not_lt.mp hrpos) hr0
    have hext : stride * (extent / stride) = extent := by linarith
    refine ⟨trivial, ?_, ?_, ?_, ?_⟩
    · rw [List.sum_replicate, nsmul_eq_mul, hqe]
      linarith [hext]
    · intro x hx
      exact List.eq_of_mem_replicate (List.mem_of_mem_dropLast hx)
    · intro h
      have hmem := List.getLast_mem h
      have hx := List.eq_of_mem_replicate hmem
      rw [hx]
      exact ⟨hs, le_refl stride⟩
    · rw [List.replicate_eq_nil_iff]
      constructor
      · intro hq
        have : extent / stride = 0 := by omega
        rw [this] at hext
        simpa using hext.symm
      · intro hext0
        subst hext0
        simp [Int.zero_ediv]

/-- The content of a stored element: a (possibly 1-row) grid of integer
samples.  Dense arrays are the grid itself; a sparse group wrapped by
`ad.experimental.sparse_dataset` is modelled by the matrix it denotes. -/
def StorageElem : Type := List (List Int)

instance : DecidableEq StorageElem := by
  unfold StorageElem
  infer_instance

/-- The first argument of `maybe_open_h5` / `make_dask_chunk`: either a
filesystem `Path` to the single-file (h5) backend, or an already-open
directory-store (zarr) group handle. -/
inductive PathOrGroup where
  | path (p : String)
  | group (g : StorageElem)

/-- Observable file-system events of one scoped access. -/
inductive FsEvent where
  | openFile (p : String)
  | closeFile (p : String)
  deriving DecidableEq, Repr

/-- The ambient storage state threaded through every effectful call:
the read-only file contents (`path → element name → stored content`)
and the list of currently open single-file connections. -/
structure World where
  fs : String → String → Option StorageElem
  openFiles : List String

/-- Embeds the context manager `maybe_open_h5` from `lazy_methods.py`
applied to a scoped body: a non-`Path` argument is yielded unchanged with
no file-system activity; a `Path` argument opens `h5py.File(path, "r")`,
yields `file[elem_name]` inside the `try`, and the `finally` closes the
connection whether the body returned or raised.  The call returns the
body's outcome, the world after the scope exits, and the event trace. -/
def maybe_open_h5 {α : Type} (w : World) (path_or_group : PathOrGroup)
    (elem_name : String) (body : StorageElem → Except String α) :
    Except String α × World × List FsEvent :=
  match path_or_group with
  | .group g => (body g, w, [])
  | .path p =>
    let w1 : World := { w with openFiles := p :: w.openFiles }
    let r : Except String α :=
      match w.fs p elem_name with
      | some e => body e
      | none => .error "KeyError"
    let w2 : World := { w1 with openFiles := w1.openFiles.erase p }
    (r, w2, [.openFile p, .closeFile p])

/-- Python slicing `xs[start:stop]` for `0 ≤ start ≤ stop`. -/
def sliceRange {β : Type} (xs : List β) (r : Nat × Nat) : List β :=
  (xs.take r.2).drop r.1

/-- `mtx[idx]` for a tuple `idx` of per-axis slices: the first range
slices rows, the second (when present) slices within each row. -/
def getitemSlices (m : StorageElem) (ranges : List (Nat × Nat)) :
    StorageElem :=
  match ranges with
  | [] => m
  | [r] => sliceRange m r
  | r1 :: r2 :: _ => (sliceRange m r1).map fun row => sliceRange row r2

/-- The `array-location` ranges of the block handed over by the engine. -/
def BlockInfo : Type := List (Nat × Nat)

/-- Embeds `make_dask_chunk` from `lazy_methods.py`: fails immediately
when invoked without block info; otherwise opens scoped storage access
via `maybe_open_h5`, applies `wrap` (identity for dense data,
`sparse_dataset` for sparse groups), slices the wrapped element with the
block's `array-location` ranges and returns the chunk. -/
def make_dask_chunk (w : World) (path_or_group : PathOrGroup)
    (elem_name : String) (block_info : Option BlockInfo)
    (wrap : StorageElem → StorageElem) :
    Except String StorageElem × World × List FsEvent :=
  match block_info with
  | none => (.error "Block info is required", w, [])
  | some bi =>
    maybe_open_h5 w path_or_group elem_name fun f =>
      let mtx := wrap f
      .ok (getitemSlices mtx bi)

/-- C4: for a file-path input, the storage-scoping operation opens exactly
one fresh connection and closes it exactly once on every exit path (the
trace is the same whether the body returns or raises, and the world is
restored), and the body is applied to the sub-element at `elem_name`; for
an already-open directory-store handle it yields the handle unchanged and
opens or closes nothing. -/
theorem maybe_open_h5_scoping {α : Type} (w : World) (elem_name : String)
    (body : StorageElem → Except String α) :
    (∀ p : String,
      (maybe_open_h5 w (.path p) elem_name body).2.2.count
        (FsEvent.closeFile p) = 1 ∧
      (maybe_open_h5 w (.path p) elem_name body).2.2.count
        (FsEvent.openFile p) = 1 ∧
      (maybe_open_h5 w (.path p) elem_name body).2.2 =
        [FsEvent.openFile p, FsEvent.closeFile p] ∧
      (maybe_open_h5 w (.path p) elem_name body).2.1 = w ∧
      (∀ e : StorageElem, w.fs p elem_name = some e →
        (maybe_open_h5 w (.path p) elem_name body).1 = body e)) ∧
    (∀ g : StorageElem,
      maybe_open_h5 w (.group g) elem_name body = (body g, w, [])) := by
  constructor
  · intro p
    refine ⟨by simp [maybe_open_h5], by simp [maybe_open_h5],
      rfl, ?_, ?_⟩
    · show ({ w with openFiles := (p :: w.openFiles).erase p } : World) = w
      simp [List.erase_cons_head]
    · intro e he
      simp [maybe_open_h5, he]
  · intro g
    rfl

/-- A one-file world used to instantiate the scoping theorem. -/
def demoWorld : World :=
  ⟨fun pa en => if pa = "data.h5" ∧ en = "X"
    then some [[1, 2], [3, 4]] else none, []⟩

/-- A scoped body that raises, to exercise the failure exit path. -/
def demoFailBody : StorageElem → Except String Unit :=
  fun _ => .error "boom"

/-- Witness for C4: a world holding one file `data.h5` with an element
`X`; the scope around a body that raises still opens and closes exactly
once on the failure exit path. -/
theorem maybe_open_h5_scoping_witness :
    (∀ p : String,
      (maybe_open_h5 demoWorld (.path p) "X" demoFailBody).2.2.count
        (FsEvent.closeFile p) = 1 ∧
      (maybe_open_h5 demoWorld (.path p) "X" demoFailBody).2.2.count
        (FsEvent.openFile p) = 1 ∧
      (maybe_open_h5 demoWorld (.path p) "X" demoFailBody).2.2 =
        [FsEvent.openFile p, FsEvent.closeFile p] ∧
      (maybe_open_h5 demoWorld (.path p) "X" demoFailBody).2.1 = demoWorld ∧
      (∀ e : StorageElem, demoWorld.fs p "X" = some e →
        (maybe_open_h5 demoWorld (.path p) "X" demoFailBody).1 =
          demoFailBody e)) ∧
    (∀ g : StorageElem,
      maybe_open_h5 demoWorld (.group g) "X" demoFailBody =
        (demoFailBody g, demoWorld, [])) :=
  maybe_open_h5_scoping demoWorld "X" demoFailBody

/-- C9: the chunk materializer is stateless and idempotent: one
invocation returns the world it was given (the storage state it reads is
unchanged by materialization, every open being matched by its close), and
a second invocation with the same path-or-handle, element name and block
info — run after the first, on the world the first returned — yields the
identical result and trace. -/
theorem make_dask_chunk_idempotent (w : World) (x : PathOrGroup)
    (elem_name : String) (block_info : Option BlockInfo)
    (wrap : StorageElem → StorageElem) :
    (make_dask_chunk w x elem_name block_info wrap).2.1 = w ∧
    make_dask_chunk (make_dask_chunk w x elem_name block_info wrap).2.1
        x elem_name block_info wrap =
      make_dask_chunk w x elem_name block_info wrap := by
  have hw : (make_dask_chunk w x elem_name block_info wrap).2.1 = w := by
    rcases block_info with _ | bi
    · rfl
    · rcases x with p | g
      · show ({ w with openFiles := (p :: w.openFiles).erase p } : World) = w
        simp [List.erase_cons_head]
      · rfl
  exact ⟨hw, by rw [hw]⟩

/-- C2: for every sparse-matrix read (csr or csc) with a caller-supplied
chunks override, the reader raises a configuration error at dispatch time
iff the override does not have rank 2 or its minor-axis entry differs from
the full minor-axis extent; a conforming override raises no error (the
`Except` value is `ok`, i.e. a deferred array is constructed). -/
theorem read_sparse_chunks_validation (elem : SparseGroup) (cs : List Int) :
    exceptOk (read_sparse_as_dask elem (some cs)) = true ↔
      (cs.length = 2 ∧
        cs.getD (if elem.encoding_type = "csc_matrix" then 0 else 1) 0 =
          (if elem.encoding_type = "csc_matrix" then elem.shape.1
            else elem.shape.2)) := by
  rcases cs with _ | ⟨a, _ | ⟨b, _ | ⟨c, t⟩⟩⟩
  · simp [read_sparse_as_dask, exceptOk, Except.map]
  · simp [read_sparse_as_dask, exceptOk, Except.map]
  · by_cases hcsc : elem.encoding_type = "csc_matrix"
    · by_cases hminor : a = elem.shape.1 <;>
        simp [read_sparse_as_dask, exceptOk, hcsc, hminor, Except.map]
    · by_cases hminor : b = elem.shape.2 <;>
        simp [read_sparse_as_dask, exceptOk, hcsc, hminor, Except.map]
  · simp [read_sparse_as_dask, exceptOk, Except.map]

/-- C3: evaluating the sparse reader on a csr matrix of shape `(100, 50)`:
the override `(-1, 50)` passes validation but the stride `-1` is not mapped
to the default stride — `np.divmod(100, -1) = (-100, 0)` makes the
major-axis partition empty (summing to 0, not 100) instead of the
default-stride partition `[100]`; the override `(100, 25)` does raise the
configuration error. -/
theorem read_sparse_neg_one_stride_bug :
    read_sparse_as_dask ⟨(100, 50), "csr_matrix", "float64"⟩ (some [-1, 50]) =
      .ok { chunk_layout := ([], [50]), is_csc := false, dtype := "float64" } ∧
    ([] : List Int) ≠ compute_chunk_layout_for_axis_shape _DEFAULT_STRIDE 100 ∧
    compute_chunk_layout_for_axis_shape _DEFAULT_STRIDE 100 = [100] ∧
    read_sparse_as_dask ⟨(100, 50), "csr_matrix", "float64"⟩ (some [100, 25]) =
      .error "Only the major axis can be chunked." := by
  refine ⟨rfl, by decide, rfl, rfl⟩

/-- Witness for C1 at `stride = 3`, `extent = 7`. -/
theorem compute_chunk_layout_correct_witness :
    (0 : Int) < 3 ∧ (0 : Int) ≤ 7 ∧
    (compute_chunk_layout_for_axis_shape 3 7 =
      List.replicate ((7 : Int) / 3).toNat 3 ++
        (if (7 : Int) % 3 > 0 then [(7 : Int) % 3] else []) ∧
    (compute_chunk_layout_for_axis_shape 3 7).sum = 7 ∧
    (∀ x ∈ (compute_chunk_layout_for_axis_shape 3 7).dropLast, x = 3) ∧
    (∀ h : compute_chunk_layout_for_axis_shape 3 7 ≠ [],
      0 < (compute_chunk_layout_for_axis_shape 3 7).getLast h ∧
      (compute_chunk_layout_for_axis_shape 3 7).getLast h ≤ 3) ∧
    (compute_chunk_layout_for_axis_shape 3 7 = [] ↔ (7 : Int) = 0)) :=
  ⟨by decide, by decide, compute_chunk_layout_correct 3 7 (by decide) (by decide)⟩

end LazyMethods

namespace LazyArrays

/-- `ZarrOrHDF5Wrapper.__init__` from `_lazy_arrays.py`.  A zarr array
takes the superclass path, an h5 array the direct path; both record the
array and its shape.  Passing `None` (as `MaskedArray.__init__` does for
an absent mask) is the h5 path, and `self._array.shape` then raises
`AttributeError` because `None` has no `shape`. -/
structure ZarrOrHDF5Wrapper (β : Type) where
  _array : Option (List β)
  shape : Nat
  deriving DecidableEq, Repr

/-- Constructor of `ZarrOrHDF5Wrapper`: the only failing input is `None`. -/
def ZarrOrHDF5Wrapper.init {β : Type} (array : Option (List β)) :
    Except String (ZarrOrHDF5Wrapper β) :=
  match array with
  | none => .error "AttributeError: NoneType object has no attribute shape"
  | some a => .ok ⟨some a, a.length⟩

/-- `ZarrOrHDF5Wrapper.__getitem__`: both branches index the underlying
array with the adapted key; subscripting a `None` array would raise. -/
def ZarrOrHDF5Wrapper.getitem {β : Type} (w : ZarrOrHDF5Wrapper β)
    (key : Nat × Nat) : Except String (List β) :=
  match w._array with
  | none => .error "TypeError: NoneType object is not subscriptable"
  | some a => .ok (LazyMethods.sliceRange a key)

/-- A `pd.Categorical`: integer codes against a list of categories with
an ordered flag (code `-1` is the missing marker). -/
structure Categorical where
  codes : List Int
  categories : List String
  ordered : Bool
  deriving DecidableEq, Repr

/-- `pd.Categorical.from_codes`. -/
def Categorical.from_codes (codes : List Int) (categories : List String)
    (ordered : Bool) : Categorical :=
  ⟨codes, categories, ordered⟩

/-- `pd.Categorical.remove_unused_categories`: keep only the categories
that occur in the codes (original order preserved) and remap the codes;
`-1` stays `-1`. -/
def Categorical.remove_unused_categories (c : Categorical) : Categorical :=
  let usedIdx : List Nat := (List.range c.categories.length).filter
    fun i => c.codes.contains (Int.ofNat i)
  let newCats : List String := usedIdx.filterMap fun i => c.categories.get? i
  let newCodes : List Int := c.codes.map fun (code : Int) =>
    if code < 0 then -1
    else match usedIdx.findIdx? (fun i => i = code.toNat) with
      | some j => (j : Int)
      | none => -1
  ⟨newCodes, newCats, c.ordered⟩

/-- `CategoricalArray.__init__` from `_lazy_arrays.py`.  Note the source
signature is `(codes, categories, ordered, *args, **kwargs)`: the
`drop_unused_cats` keyword that `read_categorical` passes lands in
`**kwargs` and is discarded — only codes, categories and `ordered` are
stored. -/
structure CategoricalArray where
  _categories : List String
  _ordered : Bool
  _codes : ZarrOrHDF5Wrapper Int
  shape : Nat
  deriving DecidableEq, Repr

/-- Constructor of `CategoricalArray` (wrapping the codes never fails
since codes are a real stored array). -/
def CategoricalArray.init (codes : List Int) (categories : List String)
    (ordered : Bool) (drop_unused_cats : Bool) :
    Except String CategoricalArray := do
  let _ := drop_unused_cats
  let w ← ZarrOrHDF5Wrapper.init (some codes)
  pure ⟨categories, ordered, w, w.shape⟩

/-- `CategoricalArray.__getitem__`: fetch the codes for the key, build
`pd.Categorical.from_codes` against the (cached) full categories with the
`ordered` flag, and, when the process-wide
`settings.should_remove_unused_categories` flag — read here at indexing
time — is set, prune unused categories after indexing. -/
def CategoricalArray.getitem (a : CategoricalArray)
    (settings_should_remove_unused_categories : Bool) (key : Nat × Nat) :
    Except String Categorical := do
  let codes ← a._codes.getitem key
  let categorical_array := Categorical.from_codes codes a._categories a._ordered
  pure (if settings_should_remove_unused_categories
    then categorical_array.remove_unused_categories
    else categorical_array)

/-- The `codes`, `categories` children and `ordered` attribute of a
stored categorical group. -/
structure CategoricalGroup where
  codes : List Int
  categories : List String
  ordered : Bool
  deriving DecidableEq, Repr

/-- `read_categorical` from `lazy_methods.py`: constructs the wrapper,
passing the process-wide `settings.should_remove_unused_categories` flag
— read at construction time — as `drop_unused_cats`. -/
def read_categorical (elem : CategoricalGroup)
    (settings_should_remove_unused_categories : Bool) :
    Except String CategoricalArray :=
  CategoricalArray.init elem.codes elem.categories elem.ordered
    settings_should_remove_unused_categories

/-- The typed values `MaskedArray.__getitem__` can produce. -/
inductive PandasValue where
  | integerArray (values : List Int) (mask : List Bool)
  | booleanArray (values : List Int) (mask : List Bool)
  | plainArray (values : List Int)
  deriving DecidableEq, Repr

/-- `MaskedArray.__init__` from `_lazy_arrays.py`: wraps the mask (first)
and the values in `ZarrOrHDF5Wrapper` and records the dtype tag.  With
`mask = None`, wrapping the mask raises. -/
structure MaskedArray where
  _mask : ZarrOrHDF5Wrapper Bool
  _values : ZarrOrHDF5Wrapper Int
  _dtype_str : String
  shape : Nat
  deriving DecidableEq, Repr

/-- Constructor of `MaskedArray`, in source order: mask first, values
second. -/
def MaskedArray.init (values : List Int) (dtype_str : String)
    (mask : Option (List Bool)) : Except String MaskedArray := do
  let m ← ZarrOrHDF5Wrapper.init mask
  let v ← ZarrOrHDF5Wrapper.init (some values)
  pure ⟨m, v, dtype_str, v.shape⟩

/-- `MaskedArray.__getitem__`: fetch the values; `self._mask` is a
wrapper object and therefore never `None`, so the guard is always taken
and the mask is fetched too; the tag `nullable-integer` yields
`pd.arrays.IntegerArray`, `nullable-boolean` yields
`pd.arrays.BooleanArray`, and any other tag falls through to the final
`return` — a plain `pd.array` over the values, the fetched mask
ignored. -/
def MaskedArray.getitem (m : MaskedArray) (key : Nat × Nat) :
    Except String PandasValue := do
  let values ← m._values.getitem key
  let mask ← m._mask.getitem key
  if m._dtype_str = "nullable-integer" then
    pure (.integerArray values mask)
  else if m._dtype_str = "nullable-boolean" then
    pure (.booleanArray values mask)
  else
    pure (.plainArray values)

/-- The `values` child and optional `mask` child of a stored nullable
group. -/
structure NullableGroup where
  values : List Int
  mask : Option (List Bool)
  deriving DecidableEq, Repr

/-- `read_nullable` from `lazy_methods.py`: constructs the masked
wrapper over the `values` child, the `mask` child if present (else
`None`), and the encoding type as dtype tag. -/
def read_nullable (elem : NullableGroup) (encoding_type : String) :
    Except String MaskedArray :=
  MaskedArray.init elem.values encoding_type elem.mask

/-- C5: the categorical wrapper built by `read_categorical` from codes
`[0, 0]` against categories `["a", "b", "c"]` with the pruning flag true
at construction (`drop_unused_cats = True`) and true again when read at
indexing time: indexing the full range yields a categorical whose
category set is `{"a"}` only, pruned after indexing (codes stay
`[0, 0]`, now against the single category). -/
theorem categorical_drop_unused_cats (ordered : Bool) :
    (read_categorical ⟨[0, 0], ["a", "b", "c"], ordered⟩ true).bind
      (fun arr => arr.getitem true (0, 2)) =
    .ok ⟨[0, 0], ["a"], ordered⟩ := by
  cases ordered <;> rfl

/-- C6: the claim says construction with no declared mask succeeds and
indexing returns a plain typed value; the code instead crashes at
construction: `MaskedArray.__init__` unconditionally wraps the mask in
`ZarrOrHDF5Wrapper`, whose constructor evaluates `None.shape` and raises
`AttributeError` — even though the unreachable final branch of
`__getitem__` shows the plain-value path was intended. -/
theorem masked_array_none_mask_bug :
    MaskedArray.init [1, 2, 3] "nullable-integer" none =
      .error "AttributeError: NoneType object has no attribute shape" ∧
    read_nullable ⟨[1, 2, 3], none⟩ "nullable-integer" =
      .error "AttributeError: NoneType object has no attribute shape" :=
  ⟨rfl, rfl⟩

/-- Counterexample to C7: a masked wrapper holding a mask, indexed with
the dtype tag `"other"`, does not raise — it silently returns the plain
value over the fetched values, ignoring the mask. -/
theorem masked_array_bad_dtype_counterexample :
    (MaskedArray.init [1, 2, 3] "other" (some [false, true, false])).bind
      (fun m => m.getitem (0, 3)) = .ok (.plainArray [1, 2, 3]) := rfl

/-- C7 amended: for every masked wrapper holding a mask, indexing with a
dtype tag outside `{nullable-integer, nullable-boolean}` is NOT raised:
the branch chain falls through and silently returns a plain typed value
over the fetched values, ignoring the mask. -/
theorem masked_array_bad_dtype_fallthrough (values : List Int)
    (mask : List Bool) (dtype_str : String) (key : Nat × Nat)
    (h1 : dtype_str ≠ "nullable-integer")
    (h2 : dtype_str ≠ "nullable-boolean") :
    (MaskedArray.init values dtype_str (some mask)).bind
      (fun m => m.getitem key) =
    .ok (.plainArray (LazyMethods.sliceRange values key)) := by
  simp [MaskedArray.init, MaskedArray.getitem, ZarrOrHDF5Wrapper.init,
    ZarrOrHDF5Wrapper.getitem, Except.bind, bind, Except.instMonad, pure,
    Except.pure, h1, h2]

/-- Witness for the amended C7 at values `[1, 2, 3]`, mask
`[false, true, false]`, tag `"other"`, full-range key. -/
theorem masked_array_bad_dtype_fallthrough_witness :
    ("other" ≠ "nullable-integer") ∧ ("other" ≠ "nullable-boolean") ∧
    (MaskedArray.init [1, 2, 3] "other" (some [false, true, false])).bind
      (fun m => m.getitem (0, 3)) =
    .ok (.plainArray (LazyMethods.sliceRange [1, 2, 3] (0, 3))) :=
  ⟨by decide, by decide,
    masked_array_bad_dtype_fallthrough [1, 2, 3] [false, true, false]
      "other" (0, 3) (by decide) (by decide)⟩

end LazyArrays

namespace LazyMethods

/-- The static metadata `read_h5_array` reads off a dense h5 array
element: filesystem path, in-file name, shape and dtype. -/
structure H5ArrayElem where
  shape : List Int
  dtype : String
  filename : String
  name : String
  deriving DecidableEq, Repr

/-- The static metadata of a zarr array element; `chunks` is the
element's own stored per-axis chunk size. -/
structure ZarrArrayElem where
  shape : List Int
  chunks : List Int
  dtype : String
  deriving DecidableEq, Repr

/-- The observable description of a deferred dense array: per-axis chunk
partition and dtype. -/
structure DaskDenseArray where
  chunk_layout : List (List Int)
  dtype : String
  deriving DecidableEq, Repr

/-- Embeds `read_h5_array` from `lazy_methods.py`: `chunks` defaults to
`(_DEFAULT_STRIDE,) * len(shape)`, and the chunk layout is
`compute_chunk_layout_for_axis_shape(chunks[i], shape[i])` for each
axis `i` in `range(len(shape))`. -/
def read_h5_array (elem : H5ArrayElem) (chunks : Option (List Int)) :
    DaskDenseArray :=
  let shape := elem.shape
  let cs : List Int :=
    match chunks with
    | some c => c
    | none => List.replicate shape.length _DEFAULT_STRIDE
  { chunk_layout := (List.range shape.length).map fun i =>
      compute_chunk_layout_for_axis_shape (cs.getD i 0) (shape.getD i 0)
    dtype := elem.dtype }

/-- Embeds `read_zarr_array` from `lazy_methods.py`: `chunks` defaults to
`elem.chunks` — the element's own stored chunking, not the default
stride — and `da.from_zarr(elem, chunks=cs)` normalizes the per-axis
integer chunk spec over the shape, which for a positive stride is
exactly `compute_chunk_layout_for_axis_shape`. -/
def read_zarr_array (elem : ZarrArrayElem) (chunks : Option (List Int)) :
    DaskDenseArray :=
  let cs : List Int := chunks.getD elem.chunks
  { chunk_layout := (List.range elem.shape.length).map fun i =>
      compute_chunk_layout_for_axis_shape (cs.getD i 0) (elem.shape.getD i 0)
    dtype := elem.dtype }

theorem map_range_getD {A B : Type} (l : List A) (d : A) (f : A → B) :
    (List.range l.length).map (fun i => f (l.getD i d)) = l.map f := by
  induction l with
  | nil => rfl
  | cons a t ih =>
    rw [List.length_cons, List.range_succ_eq_map, List.map_cons, List.map_map]
    simp only [Function.comp, List.getD_cons_zero, List.getD_cons_succ]
    rw [List.map_cons]
    exact congrArg (f a :: ·) (ih)

/-- Counterexample to C8: the zarr dense reader invoked without a chunk
override on an element of shape `(10,)` whose stored chunking is `(5,)`
partitions the axis as `(5, 5)` — the element's own chunking — not the
default-stride-1000 partition `(10,)` the claim prescribes. -/
theorem read_zarr_default_chunks_counterexample :
    (read_zarr_array ⟨[10], [5], "f8"⟩ none).chunk_layout = [[5, 5]] ∧
    [compute_chunk_layout_for_axis_shape _DEFAULT_STRIDE 10] = [[10]] ∧
    ([[(5 : Int), 5]] ≠ [[(10 : Int)]]) := by
  refine ⟨rfl, rfl, by decide⟩

/-- C8 amended: without a caller-supplied chunk override, the h5 dense
reader computes the partition via the chunk layout calculator with
stride 1000 on every axis, and the sparse readers via the calculator
with stride 1000 on the major axis (the minor axis being one
full-extent chunk); the zarr dense/string reader instead defaults to
the element's own stored chunk sizes (its partition equals the one an
explicit override by those sizes would give). -/
theorem default_stride_chunking :
    (∀ elem : H5ArrayElem,
      (read_h5_array elem none).chunk_layout =
        elem.shape.map (compute_chunk_layout_for_axis_shape _DEFAULT_STRIDE)) ∧
    (∀ elem : SparseGroup,
      read_sparse_as_dask elem none =
        .ok { chunk_layout :=
                if elem.encoding_type = "csc_matrix" then
                  ([elem.shape.1],
                    compute_chunk_layout_for_axis_shape _DEFAULT_STRIDE
                      elem.shape.2)
                else
                  (compute_chunk_layout_for_axis_shape _DEFAULT_STRIDE
                      elem.shape.1,
                    [elem.shape.2])
              is_csc := elem.encoding_type = "csc_matrix"
              dtype := elem.dtype }) ∧
    (∀ elem : ZarrArrayElem,
      read_zarr_array elem none = read_zarr_array elem (some elem.chunks)) := by
  refine ⟨?_, ?_, ?_⟩
  · intro elem
    show (List.range elem.shape.length).map (fun i =>
        compute_chunk_layout_for_axis_shape
          ((List.replicate elem.shape.length _DEFAULT_STRIDE).getD i 0)
          (elem.shape.getD i 0)) =
      elem.shape.map (compute_chunk_layout_for_axis_shape _DEFAULT_STRIDE)
    have hcong : ∀ i ∈ List.range elem.shape.length,
        compute_chunk_layout_for_axis_shape
          ((List.replicate elem.shape.length _DEFAULT_STRIDE).getD i 0)
          (elem.shape.getD i 0) =
        compute_chunk_layout_for_axis_shape _DEFAULT_STRIDE
          (elem.shape.getD i 0) := by
      intro i hi
      rw [List.mem_range] at hi
      rw [List.getD_eq_getElem?_getD, List.getElem?_replicate, if_pos hi]
      rfl
    rw [List.map_congr_left hcong, map_range_getD]
  · intro elem
    by_cases hcsc : elem.encoding_type = "csc_matrix" <;>
      simp [read_sparse_as_dask, Except.map, hcsc]
  · intro elem
    rfl

end LazyMethods

namespace LazyMethods

/-- Python dict assignment `d[k] = v`: updates the value in place when
the key is present (keeping its position), otherwise appends. -/
def dictInsert {V : Type} (d : List (String × V)) (k : String) (v : V) :
    List (String × V) :=
  if d.any (fun p => p.1 = k) then
    d.map fun p => if p.1 = k then (k, v) else p
  else d ++ [(k, v)]

/-- A Python dict built left to right from key-value pairs
(comprehension / assignment loop). -/
def dictOfList {V : Type} (l : List (String × V)) : List (String × V) :=
  l.foldl (fun d p => dictInsert d p.1 p.2) []

theorem dictInsert_of_not_mem {V : Type} (d : List (String × V))
    (k : String) (v : V) (h : k ∉ d.map Prod.fst) :
    dictInsert d k v = d ++ [(k, v)] := by
  unfold dictInsert
  rw [if_neg]
  simp only [List.any_eq_true, decide_eq_true_eq, not_exists]
  intro p hp
  rcases hp with ⟨hmem, heq⟩
  exact h (heq ▸ List.mem_map_of_mem Prod.fst hmem)

theorem dictOfList_aux {V : Type} (l : List (String × V)) :
    ∀ acc : List (String × V),
    (∀ k ∈ l.map Prod.fst, k ∉ acc.map Prod.fst) →
    (l.map Prod.fst).Nodup →
    l.foldl (fun d p => dictInsert d p.1 p.2) acc = acc ++ l := by
  induction l with
  | nil => intro acc _ _; simp
  | cons p t ih =>
    intro acc hdisj hnodup
    rw [List.foldl_cons,
      dictInsert_of_not_mem acc p.1 p.2 (hdisj p.1 (by simp))]
    rw [List.map_cons, List.nodup_cons] at hnodup
    rw [ih (acc ++ [p]) ?_ hnodup.2]
    · simp
    · intro k hk
      rw [List.map_append, List.mem_append]
      rintro (hka | hkp)
      · exact hdisj k (by simp [hk]) hka
      · have : k = p.1 := by simpa using hkp
        exact hnodup.1 (this ▸ hk)

theorem dictOfList_nodup {V : Type} (l : List (String × V))
    (h : (l.map Prod.fst).Nodup) : dictOfList l = l := by
  have := dictOfList_aux l [] (by simp) h
  simpa [dictOfList] using this

theorem lookup_append_of_not_mem {V : Type} (l1 l2 : List (String × V))
    (a : String) (h : a ∉ l1.map Prod.fst) :
    (l1 ++ l2).lookup a = l2.lookup a := by
  induction l1 with
  | nil => rfl
  | cons p t ih =>
    rw [List.map_cons, List.mem_cons] at h
    rcases p with ⟨k, v⟩
    rw [List.cons_append]
    have hne : (a == k) = false := by
      simp only [beq_eq_false_iff_ne, ne_eq]
      exact fun he => h (Or.inl he)
    simp only [List.lookup, hne]
    exact ih fun ht => h (Or.inr ht)

end LazyMethods

namespace LazyMethods

/-- A column value as returned by `_reader.read_elem` on a child of the
dataframe group: a deferred dask array, one of the two typed wrappers,
or any other (passthrough) value. -/
inductive ColValue where
  | dask (v : List Int)
  | cat (v : LazyArrays.CategoricalArray)
  | masked (v : LazyArrays.MaskedArray)
  | other (v : List Int)
  deriving DecidableEq, Repr

/-- `isinstance(v, DaskArray)`. -/
def ColValue.isDaskArray : ColValue → Bool
  | .dask _ => true
  | _ => false

/-- `isinstance(v, CategoricalArray) or isinstance(v, MaskedArray)`. -/
def ColValue.isCategoricalOrMasked : ColValue → Bool
  | .cat _ => true
  | .masked _ => true
  | _ => false

/-- An entry of the assembled lazy table: a dask column wired as
`xr.DataArray(v, coords=[index], dims=[index_label], name=k)`; a
wrapper column wired through `xr.Variable(LazilyIndexedArray(v))` with
the same coords, dims and name; the index entry
`xr.DataArray(v, coords=[v], dims=[index_label], name=index_label)`;
or a passthrough value. -/
inductive OutEntry where
  | column (data coords : ColValue) (dim nm : String)
  | wrappedColumn (data coords : ColValue) (dim nm : String)
  | indexCoord (data : ColValue) (nm : String)
  | passthrough (v : ColValue)
  deriving DecidableEq, Repr

/-- The metadata and (already read) children of a stored dataframe
group: its element name, the `column-order` attribute, the `_index`
attribute, and the child elements as read by the registry. -/
structure DataFrameGroup where
  elem_name : String
  column_order : List String
  index_name : String
  children : String → ColValue

/-- `elem_name.replace("/", "")` of the source: with the
single-character pattern `"/"` and empty replacement this removes every
slash character. -/
def removeSlashes (s : String) : String :=
  (s.toList.filter fun c => c ≠ '/').asString

/-- Embeds `read_dataframe` from `lazy_methods.py`.  `iter_object` lists
the declared columns and then the index element; the dict `d` maps each
name to its read element (`read_elem` runs once per pair, recorded in
the returned read trace); `index_label` is the element name with `/`
removed plus `"_names"`; `index = d[_index]` is read out once and
reused; the loop over `d` wires dask columns and wrapper columns as
`DataArray`s with `index` as the row coordinate, turns the index entry
into a coordinate entry keyed `index_label`, and passes anything else
through.  Returns the assembled table and the read trace. -/
def read_dataframe (elem : DataFrameGroup) :
    List (String × OutEntry) × List String :=
  let iter_object : List (String × ColValue) :=
    (elem.column_order.map fun k => (k, elem.children k)) ++
      [(elem.index_name, elem.children elem.index_name)]
  let d : List (String × ColValue) := dictOfList iter_object
  let index_label : String := removeSlashes elem.elem_name ++ "_names"
  let index : ColValue := (d.lookup elem.index_name).getD (ColValue.other [])
  let d_with_xr : List (String × OutEntry) :=
    d.foldl
      (fun acc p =>
        if p.2.isDaskArray ∧ p.1 ≠ elem.index_name then
          dictInsert acc p.1 (.column p.2 index index_label p.1)
        else if p.2.isCategoricalOrMasked ∧ p.1 ≠ elem.index_name then
          dictInsert acc p.1 (.wrappedColumn p.2 index index_label p.1)
        else if p.1 = elem.index_name then
          dictInsert acc index_label (.indexCoord p.2 index_label)
        else
          dictInsert acc p.1 (.passthrough p.2))
      []
  (d_with_xr, iter_object.map Prod.fst)

end LazyMethods

namespace LazyMethods

theorem foldl_congr_fun {A B : Type} (f g : A → B → A)
    (h : ∀ a b, f a b = g a b) (l : List B) (a : A) :
    l.foldl f a = l.foldl g a := by
  induction l generalizing a with
  | nil => rfl
  | cons b t ih => rw [List.foldl_cons, List.foldl_cons, h, ih]

theorem foldl_dictInsert_map {V W : Type} (f : String × V → String × W)
    (l : List (String × V)) (acc : List (String × W)) :
    l.foldl (fun d p => dictInsert d (f p).1 (f p).2) acc =
    (l.map f).foldl (fun d p => dictInsert d p.1 p.2) acc := by
  induction l generalizing acc with
  | nil => rfl
  | cons p t ih => rw [List.foldl_cons, List.map_cons, List.foldl_cons, ih]

theorem foldl_dictInsert_nodup {V : Type} (l : List (String × V))
    (h : (l.map Prod.fst).Nodup) :
    l.foldl (fun d p => dictInsert d p.1 p.2) [] = l :=
  dictOfList_nodup l h

/-- One step of the `d_with_xr` assembly loop of `read_dataframe`, seen
as a key-value transform on one dict entry. -/
def wireEntry (index_name index_label : String) (index : ColValue)
    (p : String × ColValue) : String × OutEntry :=
  if p.2.isDaskArray ∧ p.1 ≠ index_name then
    (p.1, .column p.2 index index_label p.1)
  else if p.2.isCategoricalOrMasked ∧ p.1 ≠ index_name then
    (p.1, .wrappedColumn p.2 index index_label p.1)
  else if p.1 = index_name then
    (index_label, .indexCoord p.2 index_label)
  else
    (p.1, .passthrough p.2)

end LazyMethods

namespace LazyMethods

/-- C10: for every dataframe group read (with well-formed metadata: no
duplicate declared columns, the index not among them and not colliding
with the derived label), the derived coordinate label is the element
name with all slash characters removed suffixed by `_names`; the index
element is read exactly once; and the output is each declared column —
wired with the index as its row coordinate when it is a dask array or a
typed wrapper, passed through otherwise — in declared order, followed by
the coordinate entry keyed by the derived label. -/
theorem read_dataframe_assembly (elem : DataFrameGroup)
    (hnodup : elem.column_order.Nodup)
    (hidx : elem.index_name ∉ elem.column_order)
    (hlabel : removeSlashes elem.elem_name ++ "_names" ∉ elem.column_order) :
    (read_dataframe elem).2.count elem.index_name = 1 ∧
    (read_dataframe elem).1 =
      (elem.column_order.map fun c =>
        (c,
          match elem.children c with
          | .dask v =>
            OutEntry.column (.dask v) (elem.children elem.index_name)
              (removeSlashes elem.elem_name ++ "_names") c
          | .cat v =>
            OutEntry.wrappedColumn (.cat v) (elem.children elem.index_name)
              (removeSlashes elem.elem_name ++ "_names") c
          | .masked v =>
            OutEntry.wrappedColumn (.masked v) (elem.children elem.index_name)
              (removeSlashes elem.elem_name ++ "_names") c
          | .other v => OutEntry.passthrough (.other v))) ++
      [(removeSlashes elem.elem_name ++ "_names",
        OutEntry.indexCoord (elem.children elem.index_name)
          (removeSlashes elem.elem_name ++ "_names"))] := by
  have iterKeys :
      (((elem.column_order.map fun k => (k, elem.children k)) ++
        [(elem.index_name, elem.children elem.index_name)]).map Prod.fst) =
      elem.column_order ++ [elem.index_name] := by
    simp [List.map_map, Function.comp_def]
  have hNodupIter :
      ((((elem.column_order.map fun k => (k, elem.children k)) ++
        [(elem.index_name, elem.children elem.index_name)]).map
          Prod.fst)).Nodup := by
    rw [iterKeys]
    simp [List.nodup_append, hnodup, hidx]
  have hd := dictOfList_nodup _ hNodupIter
  have hcolKeys :
      ((elem.column_order.map fun k => (k, elem.children k)).map Prod.fst) =
      elem.column_order := by
    simp [List.map_map, Function.comp_def]
  have hlookup :
      (((elem.column_order.map fun k => (k, elem.children k)) ++
        [(elem.index_name, elem.children elem.index_name)]).lookup
          elem.index_name) = some (elem.children elem.index_name) := by
    rw [lookup_append_of_not_mem]
    · simp [List.lookup]
    · rw [hcolKeys]
      exact hidx
  have hwire_col : ∀ c ∈ elem.column_order,
      wireEntry elem.index_name (removeSlashes elem.elem_name ++ "_names")
        (elem.children elem.index_name) (c, elem.children c) =
      (c,
        match elem.children c with
        | .dask v =>
          OutEntry.column (.dask v) (elem.children elem.index_name)
            (removeSlashes elem.elem_name ++ "_names") c
        | .cat v =>
          OutEntry.wrappedColumn (.cat v) (elem.children elem.index_name)
            (removeSlashes elem.elem_name ++ "_names") c
        | .masked v =>
          OutEntry.wrappedColumn (.masked v) (elem.children elem.index_name)
            (removeSlashes elem.elem_name ++ "_names") c
        | .other v => OutEntry.passthrough (.other v)) := by
    intro c hc
    have hcne : c ≠ elem.index_name := fun he => hidx (he ▸ hc)
    cases hch : elem.children c <;>
      simp [wireEntry, ColValue.isDaskArray, ColValue.isCategoricalOrMasked,
        hcne]
  have hwire_idx :
      wireEntry elem.index_name (removeSlashes elem.elem_name ++ "_names")
        (elem.children elem.index_name)
        (elem.index_name, elem.children elem.index_name) =
      (removeSlashes elem.elem_name ++ "_names",
        OutEntry.indexCoord (elem.children elem.index_name)
          (removeSlashes elem.elem_name ++ "_names")) := by
    simp [wireEntry]
  constructor
  · show ((((elem.column_order.map fun k => (k, elem.children k)) ++
      [(elem.index_name, elem.children elem.index_name)]).map
        Prod.fst)).count elem.index_name = 1
    rw [iterKeys, List.count_append]
    rw [List.count_eq_zero.mpr hidx]
    simp
  · have hbody : ∀ (acc : List (String × OutEntry)) (p : String × ColValue),
        (if p.2.isDaskArray ∧ p.1 ≠ elem.index_name then
          dictInsert acc p.1
            (.column p.2 (elem.children elem.index_name)
              (removeSlashes elem.elem_name ++ "_names") p.1)
        else if p.2.isCategoricalOrMasked ∧ p.1 ≠ elem.index_name then
          dictInsert acc p.1
            (.wrappedColumn p.2 (elem.children elem.index_name)
              (removeSlashes elem.elem_name ++ "_names") p.1)
        else if p.1 = elem.index_name then
          dictInsert acc (removeSlashes elem.elem_name ++ "_names")
            (.indexCoord p.2 (removeSlashes elem.elem_name ++ "_names"))
        else
          dictInsert acc p.1 (.passthrough p.2)) =
        dictInsert acc
          (wireEntry elem.index_name (removeSlashes elem.elem_name ++ "_names")
            (elem.children elem.index_name) p).1
          (wireEntry elem.index_name (removeSlashes elem.elem_name ++ "_names")
            (elem.children elem.index_name) p).2 := by
      intro acc p
      by_cases hd1 : p.2.isDaskArray = true <;>
        by_cases hcm : p.2.isCategoricalOrMasked = true <;>
        by_cases hne : p.1 = elem.index_name <;>
        simp [wireEntry, hd1, hcm, hne]
    have h2 : (read_dataframe elem).1 =
        ((elem.column_order.map fun k => (k, elem.children k)) ++
          [(elem.index_name, elem.children elem.index_name)]).foldl
          (fun acc p =>
            if p.2.isDaskArray ∧ p.1 ≠ elem.index_name then
              dictInsert acc p.1
                (.column p.2 (elem.children elem.index_name)
                  (removeSlashes elem.elem_name ++ "_names") p.1)
            else if p.2.isCategoricalOrMasked ∧ p.1 ≠ elem.index_name then
              dictInsert acc p.1
                (.wrappedColumn p.2 (elem.children elem.index_name)
                  (removeSlashes elem.elem_name ++ "_names") p.1)
            else if p.1 = elem.index_name then
              dictInsert acc (removeSlashes elem.elem_name ++ "_names")
                (.indexCoord p.2 (removeSlashes elem.elem_name ++ "_names"))
            else
              dictInsert acc p.1 (.passthrough p.2)) [] := by
      simp only [read_dataframe]
      rw [hd, hlookup]
      rfl
    rw [h2, foldl_congr_fun _ _ hbody, foldl_dictInsert_map,
      foldl_dictInsert_nodup, List.map_append, List.map_map]
    · congr 1
      · refine List.map_congr_left ?_
        intro c hc
        exact hwire_col c hc
      · rw [List.map_cons, List.map_nil, hwire_idx]
    · rw [List.map_append, List.map_map, List.map_cons, List.map_nil,
        hwire_idx, List.map_append, List.map_map]
      have hkeys :
          (elem.column_order.map
            (Prod.fst ∘
              ((wireEntry elem.index_name
                (removeSlashes elem.elem_name ++ "_names")
                (elem.children elem.index_name)) ∘
                fun k => (k, elem.children k)))) = elem.column_order := by
        refine (List.map_congr_left ?_).trans (List.map_id elem.column_order)
        intro c hc
        show Prod.fst (wireEntry elem.index_name
          (removeSlashes elem.elem_name ++ "_names")
          (elem.children elem.index_name) (c, elem.children c)) = id c
        rw [hwire_col c hc]
        rfl
      rw [hkeys]
      simp [List.nodup_append, hnodup, hlabel]

end LazyMethods

namespace LazyMethods

/-- A concrete dataframe group (element `/obs`, columns `x`, `y`, index
`idx`) used to instantiate the assembly theorem. -/
def demoDF : DataFrameGroup :=
  { elem_name := "/obs"
    column_order := ["x", "y"]
    index_name := "idx"
    children := fun s =>
      if s = "x" then ColValue.dask [1, 2]
      else if s = "y" then
        ColValue.masked
          ⟨⟨some [true, false], 2⟩, ⟨some [7, 8], 2⟩, "nullable-boolean", 2⟩
      else ColValue.dask [10, 20] }

/-- Witness for C10 at `demoDF`: the hypotheses hold and the assembled
table is the two wired columns followed by the `obs_names` coordinate. -/
theorem read_dataframe_assembly_witness :
    demoDF.column_order.Nodup ∧
    demoDF.index_name ∉ demoDF.column_order ∧
    (removeSlashes demoDF.elem_name ++ "_names" ∉ demoDF.column_order) ∧
    ((read_dataframe demoDF).2.count demoDF.index_name = 1 ∧
      (read_dataframe demoDF).1 =
        (demoDF.column_order.map fun c =>
          (c,
            match demoDF.children c with
            | .dask v =>
              OutEntry.column (.dask v) (demoDF.children demoDF.index_name)
                (removeSlashes demoDF.elem_name ++ "_names") c
            | .cat v =>
              OutEntry.wrappedColumn (.cat v)
                (demoDF.children demoDF.index_name)
                (removeSlashes demoDF.elem_name ++ "_names") c
            | .masked v =>
              OutEntry.wrappedColumn (.masked v)
                (demoDF.children demoDF.index_name)
                (removeSlashes demoDF.elem_name ++ "_names") c
            | .other v => OutEntry.passthrough (.other v))) ++
        [(removeSlashes demoDF.elem_name ++ "_names",
          OutEntry.indexCoord (demoDF.children demoDF.index_name)
            (removeSlashes demoDF.elem_name ++ "_names"))]) :=
  ⟨by decide, by decide, by decide,
    read_dataframe_assembly demoDF (by decide) (by decide) (by decide)⟩

end LazyMethods
